import Mathlib

/-!
Shallow embedding of the winres crate (src/lib.rs and src/sdk.rs) and proofs
about its specification claims.

Conventions of the embedding:
* Rust `String`/`&str` values are Lean `String` (or `List Char` for the
  character-level helpers); byte indices returned by `str::find` coincide with
  character indices on the ASCII text handled here, and UTF-8 byte-wise string
  comparison coincides with code-point lexicographic comparison.
* Rust `u16`/`u64` values are `Nat`, with `% 2 ^ 16` inserted exactly where the
  code truncates (`as u16`).
* `HashMap` fields are association lists; the list order stands for the map's
  (unspecified) iteration order.
* Fallible code returns `Except`/`Option`; a Rust panic is the distinguished
  error `RegErr.panicParseLine`.
-/

set_option maxRecDepth 8000

namespace Winres

/-! ### escape_string (src/lib.rs, lines 610-627) -/

/-- The apostrophe character, written via its code point. -/
def apostropheChar : Char := Char.ofNat 39

/-- Per-character escaping, following the `match chr` arms of `escape_string`. -/
def escapeChar (c : Char) : List Char :=
  if c = '"' then ['"', '"']
  else if c = apostropheChar then ['\\', apostropheChar]
  else if c = '\\' then ['\\', '\\']
  else if c = '\n' then ['\\', 'n']
  else if c = '\t' then ['\\', 't']
  else if c = '\r' then ['\\', 'r']
  else [c]

/-- The character loop of `escape_string`: each source character contributes
its escape sequence to the output, in order. -/
def escapeList : List Char → List Char
  | [] => []
  | c :: rest => escapeChar c ++ escapeList rest

/-- `escape_string` from src/lib.rs. -/
def escape_string (s : String) : String :=
  String.mk (escapeList s.data)

/-- Modelled from the spec: the single-character expansion of a
backslash-escape (`\\x` re-expands to the character `x` stands for). -/
def unescBS (c : Char) : Char :=
  if c = apostropheChar then apostropheChar
  else if c = '\\' then '\\'
  else if c = 'n' then '\n'
  else if c = 't' then '\t'
  else if c = 'r' then '\r'
  else c

/-- Modelled from the spec: the inverse expansion rule for escaped strings
(two double-quotes to one, backslash pair to the escaped character, everything
else unchanged).  The repository has no decoder; the resource compiler applies
this rule. -/
def unescapeList : List Char → List Char
  | [] => []
  | [c] => [c]
  | a :: b :: rest =>
    if a = '\\' then unescBS b :: unescapeList rest
    else if a = '"' then
      if b = '"' then '"' :: unescapeList rest
      else a :: unescapeList (b :: rest)
    else a :: unescapeList (b :: rest)

/-- Modelled from the spec: string-level inverse of `escape_string`. -/
def unescape_string (s : String) : String :=
  String.mk (unescapeList s.data)

/-! ### Rust string helpers used by sdk.rs -/

/-- `char::is_whitespace` (restricted to the ASCII whitespace that registry
output contains). -/
def isRustWs (c : Char) : Bool := c.isWhitespace

/-- `str::trim`: remove leading and trailing whitespace. -/
def trimRust (l : List Char) : List Char :=
  ((l.dropWhile isRustWs).reverse.dropWhile isRustWs).reverse

/-- Split a character list on a separator character; every separator ends a
segment, and the result always has one segment more than there are
separators. -/
def splitOn (sep : Char) : List Char → List (List Char)
  | [] => [[]]
  | c :: rest =>
    if c = sep then [] :: splitOn sep rest
    else
      match splitOn sep rest with
      | [] => [[c]]
      | seg :: segs => (c :: seg) :: segs

/-- `str::lines`: split on newline, drop a final empty segment (so a trailing
newline does not yield an extra empty line), and strip one trailing carriage
return from every line. -/
def linesRust (l : List Char) : List (List Char) :=
  let segs := splitOn '\n' l
  let segs := if segs.getLast? = some [] then segs.dropLast else segs
  segs.map (fun seg => if seg.getLast? = some '\r' then seg.dropLast else seg)

/-- `str::find` for a fixed pattern: index of the first occurrence. -/
def findSub (pat : List Char) : List Char → Option Nat
  | [] => if pat = [] then some 0 else none
  | c :: rest =>
    if pat.isPrefixOf (c :: rest) then some 0
    else (findSub pat rest).map (fun i => i + 1)

/-! ### src/sdk.rs: architectures, tools, and registry discovery -/

/-- `sdk::Arch`. -/
inductive Arch
  | Arm
  | Arm64
  | X64
  | X86
deriving DecidableEq

/-- `Arch::dirname`. -/
def Arch.dirname : Arch → String
  | .Arm => "arm"
  | .Arm64 => "arm64"
  | .X64 => "x64"
  | .X86 => "x86"

/-- `sdk::Tool` (paths are plain strings in the embedding). -/
structure Tool where
  sdk_version : String
  installed_root : String
  arch : Arch
  path : String
  include_dirs : List (String × String)
  lib_dirs : List (String × String)
  bin_dir : String
deriving DecidableEq

/-- `INSTALLED_ROOTS_KEY` from src/sdk.rs. -/
def installedRootsKeyChars : List Char :=
  "HKEY_LOCAL_MACHINE\\SOFTWARE\\Microsoft\\Windows Kits\\Installed Roots".data

/-- The `"KitsRoot"` marker that `InstalledRoots::new` looks for at the start
of a line. -/
def kitsRootMarker : List Char := "KitsRoot".data

/-- The `"REG_SZ"` marker separating the value name from the path. -/
def regSzMarker : List Char := "REG_SZ".data

/-- `sdk::InstalledRoots` (the `KitsRoot(String)` newtype is flattened into
the first pair component). -/
structure InstalledRoots where
  kits_roots : List (List Char × List Char)
  sdk_versions : List (List Char)
deriving DecidableEq

/-- Outcomes by which `InstalledRoots::new` can fail: the
`.expect("parse line")` panic on a `KitsRoot` line with no `REG_SZ`, and the
`"no installed root found"` error. -/
inductive RegErr
  | panicParseLine
  | noInstalledRoot
deriving DecidableEq

/-- Equality of `Except` results is decidable when it is on both sides. -/
instance {ε α : Type} [DecidableEq ε] [DecidableEq α] : DecidableEq (Except ε α) := fun a b =>
  match a, b with
  | .error e, .error f =>
    decidable_of_iff (e = f) ⟨fun h => by rw [h], fun h => by injection h⟩
  | .error _, .ok _ => isFalse (fun h => Except.noConfusion h)
  | .ok _, .error _ => isFalse (fun h => Except.noConfusion h)
  | .ok x, .ok y =>
    decidable_of_iff (x = y) ⟨fun h => by rw [h], fun h => by injection h⟩

/-- The body of the `for line in lines.lines()` loop of `InstalledRoots::new`,
acting on one raw output line. -/
def collectStep (acc : InstalledRoots) (rawLine : List Char) :
    Except RegErr InstalledRoots :=
  let line := trimRust rawLine
  if kitsRootMarker.isPrefixOf line then
    let kits_root := line.takeWhile (fun c => !(isRustWs c))
    match findSub regSzMarker line with
    | none => .error .panicParseLine
    | some i =>
      let root := (line.drop (i + 6)).dropWhile isRustWs
      .ok { acc with kits_roots := acc.kits_roots ++ [(kits_root, root)] }
  else if installedRootsKeyChars.isPrefixOf line then
    let sdk_version := line.drop (installedRootsKeyChars.length + 1)
    if sdk_version = [] then .ok acc
    else .ok { acc with sdk_versions := acc.sdk_versions ++ [sdk_version] }
  else .ok acc

/-- `InstalledRoots::new`, as a function of the text produced by the
`reg query` subprocess. -/
def installedRootsNew (output : String) : Except RegErr InstalledRoots :=
  match (linesRust output.data).foldlM collectStep ⟨[], []⟩ with
  | .error e => .error e
  | .ok roots =>
    if roots.kits_roots = [] then .error .noInstalledRoot else .ok roots

/-! ### get_sdk tool selection (src/lib.rs, lines 555-572) -/

/-- Lexicographic comparison of character lists by code point; this is what
Rust's `String: Ord` (byte-wise comparison of the UTF-8 encoding) computes. -/
def strCmpAux : List Char → List Char → Ordering
  | [], [] => .eq
  | [], _ :: _ => .lt
  | _ :: _, [] => .gt
  | a :: as, b :: bs =>
    match compare a.toNat b.toNat with
    | .eq => strCmpAux as bs
    | o => o

/-- `String::cmp` of Rust, on Lean strings. -/
def rustStrCmp (a b : String) : Ordering :=
  strCmpAux a.data b.data

/-- The accumulator update of Rust's `max_by`: keep the later element whenever
the comparison does not say the accumulated one is greater. -/
def maxStep (acc : Option Tool) (t : Tool) : Option Tool :=
  match acc with
  | none => some t
  | some m =>
    if rustStrCmp m.sdk_version t.sdk_version = .gt then some m else some t

/-- `tools.iter().max_by(|a,b| a.sdk_version.cmp(&b.sdk_version))`. -/
def maxByVersion (tools : List Tool) : Option Tool :=
  tools.foldl maxStep none

/-- The selection logic of `get_sdk`: first the candidate whose
`sdk_version` equals the `WindowsSDKVersion` environment value, otherwise the
`max_by` candidate. -/
def getSdkSelect (env_version : Option String) (tools : List Tool) : Option Tool :=
  let max_version := maxByVersion tools
  match tools.find? (fun tool =>
      match env_version with
      | some ev => ev == tool.sdk_version
      | none => false) with
  | some tool => some tool
  | none => max_version

/-- Modelled from the spec: decimal value of a non-empty digit string. -/
def parseNatDigits (l : List Char) : Option Nat :=
  if l ≠ [] ∧ l.all (fun c => c.isDigit) then
    some (l.foldl (fun acc c => acc * 10 + (c.toNat - 48)) 0)
  else none

/-- Modelled from the spec: a version string's dot-separated numeric
components ("version strings are dot-separated numeric components"). -/
def versionComponents (s : String) : List Nat :=
  (splitOn '.' s.data).map (fun comp => (parseNatDigits comp).getD 0)

/-- Modelled from the spec: component-wise numeric comparison of component
lists, used to state what "numerically greatest version string" means. -/
def natListCmp : List Nat → List Nat → Ordering
  | [], [] => .eq
  | [], _ :: _ => .lt
  | _ :: _, [] => .gt
  | a :: as, b :: bs =>
    match compare a b with
    | .eq => natListCmp as bs
    | o => o

/-! ### src/lib.rs: the descriptor model -/

/-- `VersionInfo` field names. -/
inductive VersionInfo
  | FILEVERSION
  | PRODUCTVERSION
  | FILEOS
  | FILETYPE
  | FILESUBTYPE
  | FILEFLAGSMASK
  | FILEFLAGS
deriving DecidableEq

/-- The `{:?}` (Debug) rendering of a `VersionInfo` value. -/
def versionInfoName : VersionInfo → String
  | .FILEVERSION => "FILEVERSION"
  | .PRODUCTVERSION => "PRODUCTVERSION"
  | .FILEOS => "FILEOS"
  | .FILETYPE => "FILETYPE"
  | .FILESUBTYPE => "FILESUBTYPE"
  | .FILEFLAGSMASK => "FILEFLAGSMASK"
  | .FILEFLAGS => "FILEFLAGS"

/-- `WindowsResource`.  The two `HashMap` fields are association lists whose
order stands for the map's iteration order; `language` is a `u16`. -/
structure WindowsResource where
  tool : Tool
  properties : List (String × String)
  version_info : List (VersionInfo × Nat)
  rc_file : Option String
  icon_id : Option String
  icon : Option String
  language : Nat
  manifest : Option String
  manifest_file : Option String
  output_directory : String
  windres_path : Option String
  ar_path : Option String
deriving DecidableEq

/-- `HashMap::insert` as a map update on an association list: the old binding
for the key (if any) is removed and the new one recorded. -/
def hashInsert {α β : Type} [BEq α] (m : List (α × β)) (k : α) (v : β) :
    List (α × β) :=
  m.filter (fun kv => !(kv.1 == k)) ++ [(k, v)]

/-- `WindowsResource::set`. -/
def WindowsResource.set (r : WindowsResource) (name value : String) :
    WindowsResource :=
  { r with properties := hashInsert r.properties name value }

/-- `WindowsResource::set_tool`. -/
def WindowsResource.set_tool (r : WindowsResource) (tool : Tool) :
    WindowsResource :=
  { r with tool := tool }

/-- `WindowsResource::set_language`. -/
def WindowsResource.set_language (r : WindowsResource) (language : Nat) :
    WindowsResource :=
  { r with language := language }

/-- `WindowsResource::set_icon`: assigns only the `icon` field. -/
def WindowsResource.set_icon (r : WindowsResource) (path : String) :
    WindowsResource :=
  { r with icon := some path }

/-- `WindowsResource::set_icon_with_id`. -/
def WindowsResource.set_icon_with_id (r : WindowsResource)
    (path icon_id : String) : WindowsResource :=
  { r with icon := some path, icon_id := some icon_id }

/-- `WindowsResource::set_version_info`. -/
def WindowsResource.set_version_info (r : WindowsResource)
    (field : VersionInfo) (value : Nat) : WindowsResource :=
  { r with version_info := hashInsert r.version_info field value }

/-- `WindowsResource::set_manifest`: clears `manifest_file`, then stores the
inline manifest. -/
def WindowsResource.set_manifest (r : WindowsResource) (manifest : String) :
    WindowsResource :=
  { r with manifest_file := none, manifest := some manifest }

/-- `WindowsResource::set_manifest_file`: stores the file reference and clears
the inline manifest. -/
def WindowsResource.set_manifest_file (r : WindowsResource) (file : String) :
    WindowsResource :=
  { r with manifest_file := some file, manifest := none }

/-- `WindowsResource::set_windres_path`. -/
def WindowsResource.set_windres_path (r : WindowsResource) (path : String) :
    WindowsResource :=
  { r with windres_path := some path }

/-- `WindowsResource::set_ar_path`. -/
def WindowsResource.set_ar_path (r : WindowsResource) (path : String) :
    WindowsResource :=
  { r with ar_path := some path }

/-- `WindowsResource::set_resource_file`. -/
def WindowsResource.set_resource_file (r : WindowsResource) (path : String) :
    WindowsResource :=
  { r with rc_file := some path }

/-- `WindowsResource::set_output_directory`. -/
def WindowsResource.set_output_directory (r : WindowsResource) (path : String) :
    WindowsResource :=
  { r with output_directory := path }

/-- One public configuration call on a `WindowsResource`. -/
inductive COp
  | set (name value : String)
  | setTool (tool : Tool)
  | setLanguage (language : Nat)
  | setIcon (path : String)
  | setIconWithId (path icon_id : String)
  | setVersionInfo (field : VersionInfo) (value : Nat)
  | setManifest (manifest : String)
  | setManifestFile (file : String)
  | setWindresPath (path : String)
  | setArPath (path : String)
  | setResourceFile (path : String)
  | setOutputDirectory (path : String)

/-- Dispatch a configuration call to its setter. -/
def applyOp (r : WindowsResource) : COp → WindowsResource
  | .set name value => r.set name value
  | .setTool tool => r.set_tool tool
  | .setLanguage language => r.set_language language
  | .setIcon path => r.set_icon path
  | .setIconWithId path icon_id => r.set_icon_with_id path icon_id
  | .setVersionInfo field value => r.set_version_info field value
  | .setManifest manifest => r.set_manifest manifest
  | .setManifestFile file => r.set_manifest_file file
  | .setWindresPath path => r.set_windres_path path
  | .setArPath path => r.set_ar_path path
  | .setResourceFile path => r.set_resource_file path
  | .setOutputDirectory path => r.set_output_directory path

/-! ### The serializer `write_resource_file` (src/lib.rs, lines 373-427)

Each element of a chunk list is the payload of one `writeln!` call; the file
contents are the chunks joined with a newline after each. -/

/-- `{:#x}` formatting: `0x` followed by lower-case hex digits. -/
def hexFmt (n : Nat) : String :=
  "0x" ++ String.mk (Nat.toDigits 16 n)

/-- `{:04x}` formatting: lower-case hex, zero-padded to at least four
digits. -/
def hex4 (n : Nat) : String :=
  let ds := Nat.toDigits 16 n
  String.mk (List.replicate (4 - ds.length) '0' ++ ds)

/-- One line of the version-info block: `FILEVERSION`/`PRODUCTVERSION` as four
16-bit words (`(v >> 48) as u16`, ..., `v as u16`), every other field as a
single `{:#x}` scalar. -/
def renderVersionInfoLine (k : VersionInfo) (v : Nat) : String :=
  match k with
  | .FILEVERSION | .PRODUCTVERSION =>
    versionInfoName k ++ " " ++ Nat.repr ((v >>> 48) % 65536) ++ ", "
      ++ Nat.repr ((v >>> 32) % 65536) ++ ", "
      ++ Nat.repr ((v >>> 16) % 65536) ++ ", "
      ++ Nat.repr (v % 65536)
  | _ => versionInfoName k ++ " " ++ hexFmt v

/-- A `VALUE` line of the string table. -/
def valueChunk (k v : String) : String :=
  "VALUE \"" ++ escape_string k ++ "\", \"" ++ escape_string v ++ "\""

/-- The string-property loop: one `VALUE` chunk per property with a non-empty
value, in iteration order. -/
def propertyChunks : List (String × String) → List String
  | [] => []
  | (k, v) :: rest =>
    if v.isEmpty then propertyChunks rest
    else valueChunk k v :: propertyChunks rest

/-- The optional icon statement; the id falls back to the literal `"1"`. -/
def iconChunks (r : WindowsResource) : List String :=
  match r.icon with
  | none => []
  | some icon =>
    let name_id := r.icon_id.getD "1"
    [escape_string name_id ++ " ICON \"" ++ escape_string icon ++ "\""]

/-- The optional manifest resource: only under a `FILETYPE` entry, the inline
manifest as a brace block of quoted trimmed lines, else the file reference as
a single statement. -/
def manifestChunks (r : WindowsResource) : List String :=
  match List.lookup VersionInfo.FILETYPE r.version_info with
  | none => []
  | some e =>
    match r.manifest with
    | some manf =>
      [Nat.repr e ++ " 24", "\x7b"]
        ++ (linesRust manf.data).map
          (fun line => "\"" ++ escape_string (String.mk (trimRust line)) ++ "\"")
        ++ ["\x7d"]
    | none =>
      match r.manifest_file with
      | some manf => [Nat.repr e ++ " 24 \"" ++ escape_string manf ++ "\""]
      | none => []

/-- All `writeln!` payloads of `write_resource_file`, in emission order. -/
def resourceChunks (r : WindowsResource) : List String :=
  ["#pragma code_page(65001)", "1 VERSIONINFO"]
    ++ r.version_info.map (fun kv => renderVersionInfoLine kv.1 kv.2)
    ++ ["\x7b\nBLOCK \"StringFileInfo\"",
        "\x7b\nBLOCK \"" ++ hex4 r.language ++ "04b0\"\n\x7b"]
    ++ propertyChunks r.properties
    ++ ["\x7d\n\x7d",
        "BLOCK \"VarFileInfo\" \x7b",
        "VALUE \"Translation\", " ++ hexFmt r.language ++ ", 0x04b0",
        "\x7d\n\x7d"]
    ++ iconChunks r
    ++ manifestChunks r

/-- The full text written by `write_resource_file`. -/
def writeResourceFile (r : WindowsResource) : String :=
  String.join ((resourceChunks r).map (fun chunk => chunk ++ "\n"))

/-- The packed 64-bit version layout
`MAJOR << 48 | MINOR << 32 | PATCH << 16 | RELEASE` documented on
`VersionInfo::FILEVERSION` and built by `WindowsResource::new`. -/
def packVersion (major minor patch release : Nat) : Nat :=
  major <<< 48 ||| minor <<< 32 ||| patch <<< 16 ||| release

/-- Classification of the manifest resource a descriptor will emit: none, an
inline block, or a file reference, together with the `FILETYPE` value that
types the block. -/
inductive MSrc
  | inline (manifest : String)
  | file (path : String)
deriving DecidableEq

/-- Which manifest resource (if any) serialization emits. -/
def manifestResource (r : WindowsResource) : Option (Nat × MSrc) :=
  match List.lookup VersionInfo.FILETYPE r.version_info with
  | none => none
  | some e =>
    match r.manifest with
    | some manf => some (e, .inline manf)
    | none =>
      match r.manifest_file with
      | some manf => some (e, .file manf)
      | none => none

/-- Rendering of the classified manifest resource. -/
def renderManifestOpt : Option (Nat × MSrc) → List String
  | none => []
  | some (e, .inline manf) =>
    [Nat.repr e ++ " 24", "\x7b"]
      ++ (linesRust manf.data).map
        (fun line => "\"" ++ escape_string (String.mk (trimRust line)) ++ "\"")
      ++ ["\x7d"]
  | some (e, .file manf) => [Nat.repr e ++ " 24 \"" ++ escape_string manf ++ "\""]

/-- At most one of the two manifest fields is populated. -/
def manifestAtMostOne (r : WindowsResource) : Prop :=
  r.manifest = none ∨ r.manifest_file = none

/-- Does a raw registry-output line start (after trimming) with the
`KitsRoot` marker? -/
def isKitsLine (l : List Char) : Bool :=
  kitsRootMarker.isPrefixOf (trimRust l)

/-! ### Concrete inventories and descriptors used as test inputs -/

/-- A sample tool carrying a given SDK version. -/
def toolWith (v : String) : Tool :=
  { sdk_version := v, installed_root := "C:\\Kits", arch := .X64,
    path := "C:\\Kits\\bin\\rc.exe", include_dirs := [], lib_dirs := [],
    bin_dir := "C:\\Kits\\bin" }

/-- A sample descriptor with two string properties and otherwise default
fields. -/
def sampleResource : WindowsResource :=
  { tool := toolWith "10.0.1", properties := [("A", "1"), ("B", "2")],
    version_info := [], rc_file := none, icon_id := none, icon := none,
    language := 0, manifest := none, manifest_file := none,
    output_directory := ".", windres_path := none, ar_path := none }

/-! ## Helper lemmas -/

/-- An unrecognized line (neither marker matches after trimming) leaves the
accumulator untouched. -/
theorem collectStep_unrecognized (acc : InstalledRoots) (l : List Char)
    (hk : isKitsLine l = false)
    (hkey : installedRootsKeyChars.isPrefixOf (trimRust l) = false) :
    collectStep acc l = .ok acc := by
  simp only [isKitsLine] at hk
  simp [collectStep, hk, hkey]

/-- A `KitsRoot` line with no `REG_SZ` marker makes the loop body panic. -/
theorem collectStep_kits_panic (acc : InstalledRoots) (l : List Char)
    (hk : isKitsLine l = true)
    (hf : findSub regSzMarker (trimRust l) = none) :
    collectStep acc l = .error .panicParseLine := by
  simp only [isKitsLine] at hk
  simp [collectStep, hk, hf]

/-- A `KitsRoot` line containing `REG_SZ` appends one discovered root. -/
theorem collectStep_kits_found (acc : InstalledRoots) (l : List Char) (i : Nat)
    (hk : isKitsLine l = true)
    (hf : findSub regSzMarker (trimRust l) = some i) :
    collectStep acc l = .ok { acc with
      kits_roots := acc.kits_roots ++
        [((trimRust l).takeWhile (fun c => !(isRustWs c)),
          ((trimRust l).drop (i + 6)).dropWhile isRustWs)] } := by
  simp only [isKitsLine] at hk
  simp [collectStep, hk, hf]

/-- A line that is not a `KitsRoot` line is processed without failure and
without touching the collected roots. -/
theorem collectStep_not_kits (acc : InstalledRoots) (l : List Char)
    (hk : isKitsLine l = false) :
    ∃ acc2, collectStep acc l = .ok acc2 ∧ acc2.kits_roots = acc.kits_roots := by
  simp only [isKitsLine] at hk
  by_cases hkey : installedRootsKeyChars.isPrefixOf (trimRust l) = true
  · by_cases hv : (trimRust l).drop (installedRootsKeyChars.length + 1) = []
    · exact ⟨acc, by simp [collectStep, hk, hkey, hv], rfl⟩
    · exact ⟨{ acc with sdk_versions := acc.sdk_versions ++
          [(trimRust l).drop (installedRootsKeyChars.length + 1)] },
        by simp [collectStep, hk, hkey, hv], rfl⟩
  · rw [Bool.not_eq_true] at hkey
    exact ⟨acc, by simp [collectStep, hk, hkey], rfl⟩

/-- Unfolding of `foldlM` over one line. -/
theorem foldlM_collect_cons (acc : InstalledRoots) (l : List Char)
    (ls : List (List Char)) :
    (l :: ls).foldlM collectStep acc =
      collectStep acc l >>= fun a => ls.foldlM collectStep a := by
  simp [List.foldlM]

/-- The discovery loop either succeeds — having appended exactly the roots of
the `KitsRoot` lines, so no new roots means no such line — or panics on a
malformed `KitsRoot` line. -/
theorem foldCollect_spec (ls : List (List Char)) : ∀ acc : InstalledRoots,
    (∃ extra res, ls.foldlM collectStep acc = .ok res ∧
        res.kits_roots = acc.kits_roots ++ extra ∧
        (extra = [] ↔ ∀ l ∈ ls, isKitsLine l = false)) ∨
      (ls.foldlM collectStep acc = .error .panicParseLine ∧
        ∃ l ∈ ls, isKitsLine l = true) := by
  induction ls with
  | nil =>
    intro acc
    exact Or.inl ⟨[], acc, rfl, (List.append_nil _).symm, by simp⟩
  | cons l ls ih =>
    intro acc
    by_cases hk : isKitsLine l = true
    · cases hf : findSub regSzMarker (trimRust l) with
      | none =>
        refine Or.inr ⟨?_, l, List.mem_cons_self l ls, hk⟩
        rw [foldlM_collect_cons, collectStep_kits_panic acc l hk hf]
        rfl
      | some i =>
        have hstep := collectStep_kits_found acc l i hk hf
        rcases ih { acc with kits_roots := acc.kits_roots ++
            [((trimRust l).takeWhile (fun c => !(isRustWs c)),
              ((trimRust l).drop (i + 6)).dropWhile isRustWs)] } with
          ⟨extra, res, hfold, hkits, _⟩ | ⟨hfold, w, hw, hwk⟩
        · refine Or.inl ⟨((trimRust l).takeWhile (fun c => !(isRustWs c)),
              ((trimRust l).drop (i + 6)).dropWhile isRustWs) :: extra, res, ?_, ?_, ?_⟩
          · rw [foldlM_collect_cons, hstep]
            exact hfold
          · rw [hkits]
            simp
          · exact iff_of_false (by simp) (by simp [hk])
        · refine Or.inr ⟨?_, w, List.mem_cons_of_mem l hw, hwk⟩
          rw [foldlM_collect_cons, hstep]
          exact hfold
    · rw [Bool.not_eq_true] at hk
      obtain ⟨acc2, hstep, hkits2⟩ := collectStep_not_kits acc l hk
      rcases ih acc2 with ⟨extra, res, hfold, hkits, hiff⟩ | ⟨hfold, w, hw, hwk⟩
      · refine Or.inl ⟨extra, res, ?_, ?_, ?_⟩
        · rw [foldlM_collect_cons, hstep]
          exact hfold
        · rw [hkits, hkits2]
        · rw [hiff]
          simp [hk]
      · refine Or.inr ⟨?_, w, List.mem_cons_of_mem l hw, hwk⟩
        rw [foldlM_collect_cons, hstep]
        exact hfold

/-! ## Claim C9 -/

/-- Claim C9: inventory discovery fails with the no-roots-found error exactly
when the registry output contains no (trimmed) `KitsRoot` root line, and a
successful result never carries an empty set of roots. -/
theorem c9_no_roots_error_iff (output : String) :
    (installedRootsNew output = .error .noInstalledRoot ↔
      ∀ l ∈ linesRust output.data, isKitsLine l = false) ∧
    (∀ roots, installedRootsNew output = .ok roots → roots.kits_roots ≠ []) := by
  rcases foldCollect_spec (linesRust output.data) ⟨[], []⟩ with
    ⟨extra, res, hfold, hkits, hiff⟩ | ⟨hfold, w, hw, hwk⟩
  · have hres : res.kits_roots = extra := by simpa using hkits
    by_cases he : extra = []
    · refine ⟨iff_of_true ?_ (hiff.mp he), ?_⟩
      · simp [installedRootsNew, hfold, hres, he]
      · intro roots hroots
        simp [installedRootsNew, hfold, hres, he] at hroots
    · refine ⟨iff_of_false ?_ (fun h => he (hiff.mpr h)), ?_⟩
      · simp [installedRootsNew, hfold, hres, he]
      · intro roots hroots
        simp only [installedRootsNew, hfold] at hroots
        rw [hres, if_neg he] at hroots
        cases hroots
        rw [hres]
        exact he
  · refine ⟨iff_of_false ?_ ?_, ?_⟩
    · simp [installedRootsNew, hfold]
    · intro h
      rw [h w hw] at hwk
      cases hwk
    · intro roots hroots
      simp [installedRootsNew, hfold] at hroots

/-- Witness for C9 at a concrete successful discovery. -/
theorem c9_witness :
    ({ kits_roots := [("KitsRoot10".data, "C:\\Kits".data)], sdk_versions := [] }
        : InstalledRoots).kits_roots ≠ [] :=
  (c9_no_roots_error_iff "KitsRoot10    REG_SZ    C:\\Kits").2 _ (by decide)

/-! ## Claim C3 -/

/-- Counterexample to claim C3 as stated: a registry output whose first line
starts with the root-identifier prefix but lacks the `REG_SZ` marker makes
discovery abort with a panic — the line is not skipped, even though a
well-formed root line follows. -/
theorem c3_counterexample_malformed_line_panics :
    installedRootsNew "KitsRootX junk\nKitsRoot10    REG_SZ    C:\\Kits" =
      .error .panicParseLine := by
  decide

/-- Claim C3 (amended): a line matching neither recognized prefix is skipped
and discovery continues with the remaining lines, but a line starting with
the `KitsRoot` prefix and missing the `REG_SZ` marker aborts discovery with a
panic instead of being skipped. -/
theorem c3_amended_skip_vs_panic :
    (∀ (acc : InstalledRoots) (l : List Char), isKitsLine l = false →
      installedRootsKeyChars.isPrefixOf (trimRust l) = false →
      collectStep acc l = .ok acc) ∧
    (∀ (acc : InstalledRoots) (l : List Char) (ls : List (List Char)),
      isKitsLine l = false →
      installedRootsKeyChars.isPrefixOf (trimRust l) = false →
      (l :: ls).foldlM collectStep acc = ls.foldlM collectStep acc) ∧
    (∀ (acc : InstalledRoots) (l : List Char), isKitsLine l = true →
      findSub regSzMarker (trimRust l) = none →
      collectStep acc l = .error .panicParseLine) := by
  refine ⟨collectStep_unrecognized, ?_, collectStep_kits_panic⟩
  intro acc l ls hk hkey
  rw [foldlM_collect_cons, collectStep_unrecognized acc l hk hkey]
  rfl

/-- Witness for the amended C3 on concrete lines. -/
theorem c3_amended_witness :
    collectStep ⟨[], []⟩ "End of search: 2 match(es) found.".data = .ok ⟨[], []⟩ ∧
      collectStep ⟨[], []⟩ "KitsRootX junk".data = .error .panicParseLine :=
  ⟨c3_amended_skip_vs_panic.1 ⟨[], []⟩ _ (by decide) (by decide),
   c3_amended_skip_vs_panic.2.2 ⟨[], []⟩ _ (by decide) (by decide)⟩

/-! ## Claim C4 -/

/-- Claim C4: when the version preference equals the version string of some
candidate, resolution returns a candidate with exactly that version string —
even when another candidate has a greater version — because the preference
lookup runs before the maximum-version fallback. -/
theorem c4_preference_precedence (env_version : Option String)
    (tools : List Tool) (t : Tool) (ht : t ∈ tools)
    (henv : env_version = some t.sdk_version) :
    ∃ u, getSdkSelect env_version tools = some u ∧ u ∈ tools ∧
      u.sdk_version = t.sdk_version := by
  subst henv
  have hp : (tools.find? fun tool => t.sdk_version == tool.sdk_version).isSome := by
    rw [List.find?_isSome]
    exact ⟨t, ht, by simp⟩
  obtain ⟨u, hu⟩ := Option.isSome_iff_exists.mp hp
  refine ⟨u, ?_, List.mem_of_find?_eq_some hu, ?_⟩
  · show (match tools.find? fun tool => t.sdk_version == tool.sdk_version with
      | some tool => some tool
      | none => maxByVersion tools) = some u
    rw [hu]
  · have := List.find?_some hu
    simp at this
    exact this.symm

/-- Witness for C4: with versions 10.0.1, 10.0.5, 10.0.3 and preference
10.0.3, the 10.0.3 candidate is selected, not the 10.0.5 one. -/
theorem c4_witness :
    ∃ u, getSdkSelect (some "10.0.3")
        [toolWith "10.0.1", toolWith "10.0.5", toolWith "10.0.3"] = some u ∧
      u ∈ [toolWith "10.0.1", toolWith "10.0.5", toolWith "10.0.3"] ∧
      u.sdk_version = "10.0.3" :=
  c4_preference_precedence (some "10.0.3") _ (toolWith "10.0.3") (by decide) rfl

/-! ## Claim C1 -/

/-- Counterexample to claim C1 as stated: with no preference the code selects
the candidate whose version string is greatest under plain string comparison,
which here is `10.0.9600.0` even though `10.0.17763.0` is numerically
greater component-wise. -/
theorem c1_counterexample_lexical_not_numeric :
    getSdkSelect none [toolWith "10.0.17763.0", toolWith "10.0.9600.0"] =
        some (toolWith "10.0.9600.0") ∧
      natListCmp (versionComponents "10.0.9600.0")
        (versionComponents "10.0.17763.0") = .lt := by
  constructor
  · decide
  · decide

/-! ## Claim C10 -/

/-- Claim C10: `set_icon` writes only the icon path and leaves every other
field — in particular `icon_id` — unchanged, so an id chosen earlier with
`set_icon_with_id` stays in force and serialization binds the icon to that
explicit id rather than to the default `1`. -/
theorem c10_set_icon_preserves_icon_id :
    (∀ (r : WindowsResource) (path : String),
      (r.set_icon path).icon = some path ∧
      (r.set_icon path).icon_id = r.icon_id ∧
      (r.set_icon path).tool = r.tool ∧
      (r.set_icon path).properties = r.properties ∧
      (r.set_icon path).version_info = r.version_info ∧
      (r.set_icon path).rc_file = r.rc_file ∧
      (r.set_icon path).language = r.language ∧
      (r.set_icon path).manifest = r.manifest ∧
      (r.set_icon path).manifest_file = r.manifest_file ∧
      (r.set_icon path).output_directory = r.output_directory ∧
      (r.set_icon path).windres_path = r.windres_path ∧
      (r.set_icon path).ar_path = r.ar_path) ∧
    (∀ (r : WindowsResource) (path icon_id path2 : String),
      iconChunks ((r.set_icon_with_id path icon_id).set_icon path2) =
        [escape_string icon_id ++ " ICON \"" ++ escape_string path2 ++ "\""]) :=
  ⟨fun _ _ => ⟨rfl, rfl, rfl, rfl, rfl, rfl, rfl, rfl, rfl, rfl, rfl, rfl⟩,
   fun _ _ _ _ => rfl⟩

/-! ## Claim C7 -/

/-- Claim C7: setting an inline manifest clears the manifest-file reference
and vice versa; the at-most-one-manifest-field invariant is preserved by
every configuration call; and serialization emits the manifest resource of
type 24 as the rendering of an `Option` — hence at most one block — and only
when a `FILETYPE` version-info entry is present. -/
theorem c7_manifest_mutual_exclusion :
    (∀ (r : WindowsResource) (manifest : String),
      (r.set_manifest manifest).manifest = some manifest ∧
      (r.set_manifest manifest).manifest_file = none) ∧
    (∀ (r : WindowsResource) (file : String),
      (r.set_manifest_file file).manifest_file = some file ∧
      (r.set_manifest_file file).manifest = none) ∧
    (∀ (r : WindowsResource) (ops : List COp), manifestAtMostOne r →
      manifestAtMostOne (ops.foldl applyOp r)) ∧
    (∀ r : WindowsResource,
      manifestChunks r = renderManifestOpt (manifestResource r)) ∧
    (∀ r : WindowsResource,
      List.lookup VersionInfo.FILETYPE r.version_info = none →
      manifestChunks r = []) := by
  refine ⟨fun _ _ => ⟨rfl, rfl⟩, fun _ _ => ⟨rfl, rfl⟩, ?_, ?_, ?_⟩
  · have hstep : ∀ (r : WindowsResource) (op : COp), manifestAtMostOne r →
        manifestAtMostOne (applyOp r op) := by
      intro r op h
      cases op <;> first
        | exact h
        | exact Or.inr rfl
        | exact Or.inl rfl
    intro r ops
    induction ops generalizing r with
    | nil => exact fun h => h
    | cons op ops ih => exact fun h => ih _ (hstep r op h)
  · intro r
    simp only [manifestChunks, manifestResource, renderManifestOpt]
    cases List.lookup VersionInfo.FILETYPE r.version_info with
    | none => rfl
    | some e =>
      cases r.manifest with
      | some m => rfl
      | none =>
        cases r.manifest_file with
        | some f => rfl
        | none => rfl
  · intro r h
    simp [manifestChunks, h]

/-- Witness for C7: the invariant holds after a concrete call sequence that
sets a manifest file and then an inline manifest. -/
theorem c7_witness :
    manifestAtMostOne
      ([COp.setManifestFile "app.manifest", COp.setManifest "<assembly/>",
        COp.set "CompanyName" "ACME"].foldl applyOp sampleResource) :=
  c7_manifest_mutual_exclusion.2.2.1 sampleResource _ (Or.inl rfl)

/-- The property loop emits exactly the non-empty-valued entries, in
iteration order. -/
theorem propertyChunks_eq_filter_map (props : List (String × String)) :
    propertyChunks props =
      (props.filter fun kv => !kv.2.isEmpty).map fun kv => valueChunk kv.1 kv.2 := by
  induction props with
  | nil => rfl
  | cons kv rest ih =>
    obtain ⟨k, v⟩ := kv
    by_cases hv : v.isEmpty <;> simp [propertyChunks, List.filter_cons, hv, ih]

/-! ## Claim C8 -/

/-- Claim C8: a string property with an empty value never produces a `VALUE`
line — the emitted lines are exactly those of the non-empty-valued
properties, and adding an empty-valued property leaves the serialized chunk
list unchanged. -/
theorem c8_empty_values_not_emitted :
    (∀ props : List (String × String),
      propertyChunks props =
        (props.filter fun kv => !kv.2.isEmpty).map fun kv => valueChunk kv.1 kv.2) ∧
    (∀ (r : WindowsResource) (name : String),
      resourceChunks { r with properties := (name, "") :: r.properties } =
        resourceChunks r) :=
  ⟨propertyChunks_eq_filter_map, fun _ _ => rfl⟩

/-! ## Claim C2 -/

/-- Counterexample to claim C2 as stated: two descriptors equal in every
field and holding the same string-property mapping (same entries, permuted
iteration order) serialize to different bytes, because emission follows the
map's iteration order. -/
theorem c2_counterexample_order_dependent :
    sampleResource.properties.Perm [("B", "2"), ("A", "1")] ∧
      writeResourceFile sampleResource ≠
        writeResourceFile
          { sampleResource with properties := [("B", "2"), ("A", "1")] } := by
  constructor
  · decide
  · decide

/-- Claim C2 (amended): serialization is a pure function of the descriptor,
but the `VALUE` lines follow the string-property map's iteration order; for
two iteration orders of the same mapping the emitted chunk lists are
permutations of each other (and agree outside the string table), while
byte-identical output is guaranteed only for identical iteration order. -/
theorem c2_amended_output_perm (r : WindowsResource)
    (props2 : List (String × String)) (h : r.properties.Perm props2) :
    (resourceChunks r).Perm (resourceChunks { r with properties := props2 }) := by
  have hmid : (propertyChunks r.properties).Perm (propertyChunks props2) := by
    rw [propertyChunks_eq_filter_map, propertyChunks_eq_filter_map]
    exact (h.filter _).map _
  dsimp only [resourceChunks]
  exact ((((((List.Perm.refl _).append (List.Perm.refl _)).append
    (List.Perm.refl _)).append hmid).append (List.Perm.refl _)).append
    (List.Perm.refl _)).append (List.Perm.refl _)

/-- Witness for the amended C2 at a concrete permuted mapping. -/
theorem c2_amended_witness :
    (resourceChunks sampleResource).Perm
      (resourceChunks
        { sampleResource with properties := [("B", "2"), ("A", "1")] }) :=
  c2_amended_output_perm sampleResource _ (by decide)

/-- `unescapeList` on a list with at least two elements, unfolded. -/
theorem unescapeList_cons₂ (a b : Char) (rest : List Char) :
    unescapeList (a :: b :: rest) =
      if a = '\\' then unescBS b :: unescapeList rest
      else if a = '"' then
        if b = '"' then '"' :: unescapeList rest
        else a :: unescapeList (b :: rest)
      else a :: unescapeList (b :: rest) := rfl

/-- Every character escapes to a non-empty sequence. -/
theorem escapeChar_ne_nil (c : Char) : escapeChar c ≠ [] := by
  unfold escapeChar
  split_ifs <;> simp

/-- `escapeList` maps only the empty list to the empty list. -/
theorem escapeList_eq_nil_iff (l : List Char) : escapeList l = [] ↔ l = [] := by
  cases l with
  | nil => simp [escapeList]
  | cons c rest =>
    simp only [escapeList, List.append_eq_nil]
    simp [escapeChar_ne_nil c]

/-- Character-list level round trip: decoding an encoded list restores it. -/
theorem unescapeList_escapeList (l : List Char) :
    unescapeList (escapeList l) = l := by
  induction l with
  | nil => rfl
  | cons c rest ih =>
    show unescapeList (escapeChar c ++ escapeList rest) = c :: rest
    by_cases h1 : c = '"'
    · subst h1
      rw [show escapeChar '"' = ['"', '"'] from rfl, List.cons_append,
        List.cons_append, List.nil_append, unescapeList_cons₂,
        if_neg (by decide), if_pos rfl, if_pos rfl, ih]
    · by_cases h2 : c = apostropheChar
      · subst h2
        rw [show escapeChar apostropheChar = ['\\', apostropheChar] from rfl,
          List.cons_append, List.cons_append, List.nil_append,
          unescapeList_cons₂, if_pos rfl,
          show unescBS apostropheChar = apostropheChar from rfl, ih]
      · by_cases h3 : c = '\\'
        · subst h3
          rw [show escapeChar '\\' = ['\\', '\\'] from rfl, List.cons_append,
            List.cons_append, List.nil_append, unescapeList_cons₂, if_pos rfl,
            show unescBS '\\' = '\\' from rfl, ih]
        · by_cases h4 : c = '\n'
          · subst h4
            rw [show escapeChar '\n' = ['\\', 'n'] from rfl, List.cons_append,
              List.cons_append, List.nil_append, unescapeList_cons₂,
              if_pos rfl, show unescBS 'n' = '\n' from rfl, ih]
          · by_cases h5 : c = '\t'
            · subst h5
              rw [show escapeChar '\t' = ['\\', 't'] from rfl,
                List.cons_append, List.cons_append, List.nil_append,
                unescapeList_cons₂, if_pos rfl,
                show unescBS 't' = '\t' from rfl, ih]
            · by_cases h6 : c = '\r'
              · subst h6
                rw [show escapeChar '\r' = ['\\', 'r'] from rfl,
                  List.cons_append, List.cons_append, List.nil_append,
                  unescapeList_cons₂, if_pos rfl,
                  show unescBS 'r' = '\r' from rfl, ih]
              · have hesc : escapeChar c = [c] := by
                  unfold escapeChar
                  rw [if_neg h1, if_neg h2, if_neg h3, if_neg h4, if_neg h5,
                    if_neg h6]
                rw [hesc, List.cons_append, List.nil_append]
                cases hr : escapeList rest with
                | nil =>
                  have hrest : rest = [] := (escapeList_eq_nil_iff rest).mp hr
                  subst hrest
                  rfl
                | cons e1 etail =>
                  rw [unescapeList_cons₂, if_neg h3, if_neg h1, ← hr, ih]

/-- String-level round trip. -/
theorem unescape_escape_string (s : String) :
    unescape_string (escape_string s) = s := by
  show String.mk (unescapeList (escapeList s.data)) = s
  rw [unescapeList_escapeList]

/-! ## Claim C5 -/

/-- Claim C5: `escape_string` applies exactly the defined substitutions
(double-quote to two double-quotes, single-quote to backslash + single-quote,
backslash to two backslashes, newline/tab/carriage-return to their
two-character forms, every other character unchanged), the escaped form
re-expands by the inverse rule to the original string, and escaping is
injective. -/
theorem c5_escaping_reversible :
    (∀ s : String, unescape_string (escape_string s) = s) ∧
    (∀ s t : String, escape_string s = escape_string t → s = t) ∧
    escape_string "\"" = "\"\"" ∧
    escape_string (String.mk [apostropheChar]) = String.mk ['\\', apostropheChar] ∧
    escape_string "\\" = "\\\\" ∧
    escape_string "\n" = "\\n" ∧
    escape_string "\t" = "\\t" ∧
    escape_string "\r" = "\\r" ∧
    (∀ c : Char, c ≠ '"' → c ≠ apostropheChar → c ≠ '\\' → c ≠ '\n' →
      c ≠ '\t' → c ≠ '\r' → escape_string (String.mk [c]) = String.mk [c]) := by
  refine ⟨unescape_escape_string, ?_, rfl, rfl, rfl, rfl, rfl, rfl, ?_⟩
  · intro s t h
    have h2 : unescape_string (escape_string s) =
        unescape_string (escape_string t) := by rw [h]
    rwa [unescape_escape_string, unescape_escape_string] at h2
  · intro c h1 h2 h3 h4 h5 h6
    show String.mk (escapeChar c ++ []) = String.mk [c]
    unfold escapeChar
    rw [if_neg h1, if_neg h2, if_neg h3, if_neg h4, if_neg h5, if_neg h6]
    rfl

/-- Witness for C5 on concrete strings and characters. -/
theorem c5_witness :
    unescape_string (escape_string "C:\\Program Files\\x \"q\"\n") =
        "C:\\Program Files\\x \"q\"\n" ∧
      ("ab" : String) = "ab" ∧
      escape_string (String.mk ['x']) = String.mk ['x'] :=
  ⟨c5_escaping_reversible.1 _,
   c5_escaping_reversible.2.1 "ab" "ab" rfl,
   c5_escaping_reversible.2.2.2.2.2.2.2.2 'x' (by decide) (by decide)
     (by decide) (by decide) (by decide) (by decide)⟩

/-- A bit-or with a value below the shifted-in range is plain addition. -/
theorem lor_mul_two_pow_add (n a b : Nat) (hb : b < 2 ^ n) :
    (a * 2 ^ n) ||| b = a * 2 ^ n + b := by
  induction n generalizing a b with
  | zero =>
    have hb0 : b = 0 := by simpa using hb
    subst hb0
    simp
  | succ n ih =>
    have hpow : (2 : Nat) ^ (n + 1) = 2 * 2 ^ n := by ring
    have hb2 : b / 2 < 2 ^ n := by omega
    have hsplit : b = 2 * (b / 2) + (Nat.bodd b).toNat := by
      have h1 := Nat.bodd_add_div2 b
      rw [Nat.div2_val] at h1
      omega
    have hA : a * 2 ^ (n + 1) = Nat.bit false (a * 2 ^ n) := by
      rw [Nat.bit_val]
      simp only [Bool.toNat_false, Nat.add_zero, hpow]
      ring
    have hB : b = Nat.bit (Nat.bodd b) (b / 2) := by
      conv_lhs => rw [← Nat.bit_decomp b]
      rw [Nat.div2_val]
    calc (a * 2 ^ (n + 1)) ||| b
        = Nat.bit false (a * 2 ^ n) ||| Nat.bit (Nat.bodd b) (b / 2) := by
          rw [← hA, ← hB]
      _ = Nat.bit (false || Nat.bodd b) ((a * 2 ^ n) ||| (b / 2)) :=
          Nat.lor_bit false (a * 2 ^ n) (Nat.bodd b) (b / 2)
      _ = Nat.bit (Nat.bodd b) (a * 2 ^ n + b / 2) := by
          rw [Bool.false_or, ih a (b / 2) hb2]
      _ = 2 * (a * 2 ^ n + b / 2) + (Nat.bodd b).toNat :=
          Nat.bit_val (Nat.bodd b) (a * 2 ^ n + b / 2)
      _ = a * 2 ^ (n + 1) + b := by
          have hR : a * 2 ^ (n + 1) = 2 * (a * 2 ^ n) := by
            rw [hpow]
            ring
          rw [hR]
          generalize a * 2 ^ n = X
          omega

/-- The packed layout is the weighted sum of the four bounded words. -/
theorem packVersion_eq (a b c d : Nat) (hb : b < 65536) (hc : c < 65536)
    (hd : d < 65536) :
    packVersion a b c d = a * 2 ^ 48 + b * 2 ^ 32 + c * 2 ^ 16 + d := by
  unfold packVersion
  rw [Nat.shiftLeft_eq, Nat.shiftLeft_eq, Nat.shiftLeft_eq]
  rw [lor_mul_two_pow_add 48 a (b * 2 ^ 32) (by norm_num; omega)]
  rw [show a * 2 ^ 48 + b * 2 ^ 32 = (a * 2 ^ 16 + b) * 2 ^ 32 by ring]
  rw [lor_mul_two_pow_add 32 (a * 2 ^ 16 + b) (c * 2 ^ 16) (by norm_num; omega)]
  rw [show (a * 2 ^ 16 + b) * 2 ^ 32 + c * 2 ^ 16 =
    ((a * 2 ^ 16 + b) * 2 ^ 16 + c) * 2 ^ 16 by ring]
  rw [lor_mul_two_pow_add 16 ((a * 2 ^ 16 + b) * 2 ^ 16 + c) d (by norm_num; omega)]

/-! ## Claim C6 -/

/-- Claim C6: `FILEVERSION` and `PRODUCTVERSION` render as the four 16-bit
words at bits 48-63, 32-47, 16-31 and 0-15 of the 64-bit value,
most-significant first; every other version-info field renders as a single
hexadecimal scalar; and for words in `[0, 65535]` the pack/extract round
trip is exact. -/
theorem c6_version_words_roundtrip :
    (∀ v : Nat, renderVersionInfoLine VersionInfo.FILEVERSION v =
      "FILEVERSION " ++ Nat.repr (v / 2 ^ 48 % 2 ^ 16) ++ ", "
        ++ Nat.repr (v / 2 ^ 32 % 2 ^ 16) ++ ", "
        ++ Nat.repr (v / 2 ^ 16 % 2 ^ 16) ++ ", " ++ Nat.repr (v % 2 ^ 16)) ∧
    (∀ v : Nat, renderVersionInfoLine VersionInfo.PRODUCTVERSION v =
      "PRODUCTVERSION " ++ Nat.repr (v / 2 ^ 48 % 2 ^ 16) ++ ", "
        ++ Nat.repr (v / 2 ^ 32 % 2 ^ 16) ++ ", "
        ++ Nat.repr (v / 2 ^ 16 % 2 ^ 16) ++ ", " ++ Nat.repr (v % 2 ^ 16)) ∧
    (∀ (k : VersionInfo) (v : Nat), k ≠ VersionInfo.FILEVERSION →
      k ≠ VersionInfo.PRODUCTVERSION →
      renderVersionInfoLine k v = versionInfoName k ++ " " ++ hexFmt v) ∧
    (∀ a b c d : Nat, a < 65536 → b < 65536 → c < 65536 → d < 65536 →
      packVersion a b c d >>> 48 % 65536 = a ∧
      packVersion a b c d >>> 32 % 65536 = b ∧
      packVersion a b c d >>> 16 % 65536 = c ∧
      packVersion a b c d % 65536 = d) := by
  refine ⟨?_, ?_, ?_, ?_⟩
  · intro v
    simp only [renderVersionInfoLine, versionInfoName,
      Nat.shiftRight_eq_div_pow]
    norm_num
    rfl
  · intro v
    simp only [renderVersionInfoLine, versionInfoName,
      Nat.shiftRight_eq_div_pow]
    norm_num
    rfl
  · intro k v h1 h2
    cases k with
    | FILEVERSION => exact absurd rfl h1
    | PRODUCTVERSION => exact absurd rfl h2
    | FILEOS => rfl
    | FILETYPE => rfl
    | FILESUBTYPE => rfl
    | FILEFLAGSMASK => rfl
    | FILEFLAGS => rfl
  · intro a b c d ha hb hc hd
    have hpack := packVersion_eq a b c d hb hc hd
    refine ⟨?_, ?_, ?_, ?_⟩ <;>
      rw [hpack] <;>
      first
        | (rw [Nat.shiftRight_eq_div_pow]; norm_num; omega)
        | (norm_num; omega)

/-- Witness for C6 on concrete field values and words. -/
theorem c6_witness :
    renderVersionInfoLine VersionInfo.FILEOS 262148 =
        versionInfoName VersionInfo.FILEOS ++ " " ++ hexFmt 262148 ∧
      packVersion 1 2 3 4 >>> 48 % 65536 = 1 ∧
      packVersion 1 2 3 4 >>> 32 % 65536 = 2 ∧
      packVersion 1 2 3 4 >>> 16 % 65536 = 3 ∧
      packVersion 1 2 3 4 % 65536 = 4 :=
  ⟨c6_version_words_roundtrip.2.2.1 VersionInfo.FILEOS 262148 (by decide)
      (by decide),
   (c6_version_words_roundtrip.2.2.2 1 2 3 4 (by decide) (by decide) (by decide)
      (by decide)).1,
   (c6_version_words_roundtrip.2.2.2 1 2 3 4 (by decide) (by decide) (by decide)
      (by decide)).2.1,
   (c6_version_words_roundtrip.2.2.2 1 2 3 4 (by decide) (by decide) (by decide)
      (by decide)).2.2.1,
   (c6_version_words_roundtrip.2.2.2 1 2 3 4 (by decide) (by decide) (by decide)
      (by decide)).2.2.2⟩

/-- The byte-wise comparison is reflexive. -/
theorem strCmpAux_refl (l : List Char) : strCmpAux l l = .eq := by
  induction l with
  | nil => rfl
  | cons c rest ih =>
    simp only [strCmpAux]
    rw [show compare c.toNat c.toNat = Ordering.eq from Nat.compare_eq_eq.mpr rfl]
    exact ih

/-- `gt` in one direction is `lt` in the other. -/
theorem strCmpAux_gt_iff (a : List Char) : ∀ b : List Char,
    strCmpAux a b = .gt ↔ strCmpAux b a = .lt := by
  induction a with
  | nil => intro b; cases b <;> simp [strCmpAux]
  | cons x xs ih =>
    intro b
    cases b with
    | nil => simp [strCmpAux]
    | cons y ys =>
      simp only [strCmpAux]
      rcases hxy : compare x.toNat y.toNat with _ | _ | _
      · have hyx : compare y.toNat x.toNat = .gt :=
          Nat.compare_eq_gt.mpr (Nat.compare_eq_lt.mp hxy)
        rw [hyx]
        simp
      · have hyx : compare y.toNat x.toNat = .eq :=
          Nat.compare_eq_eq.mpr (Nat.compare_eq_eq.mp hxy).symm
        rw [hyx]
        exact ih ys
      · have hyx : compare y.toNat x.toNat = .lt :=
          Nat.compare_eq_lt.mpr (Nat.compare_eq_gt.mp hxy)
        rw [hyx]
        simp

/-- Transitivity of "not greater" for the byte-wise comparison. -/
theorem strCmpAux_le_trans (a : List Char) : ∀ b c : List Char,
    strCmpAux a b ≠ .gt → strCmpAux b c ≠ .gt → strCmpAux a c ≠ .gt := by
  induction a with
  | nil =>
    intro b c _ _
    cases c <;> simp [strCmpAux]
  | cons x xs ih =>
    intro b c h1 h2
    cases b with
    | nil => simp [strCmpAux] at h1
    | cons y ys =>
      cases c with
      | nil => simp [strCmpAux] at h2
      | cons z zs =>
        simp only [strCmpAux] at h1 h2 ⊢
        rcases hxy : compare x.toNat y.toNat with _ | _ | _ <;> rw [hxy] at h1
        · rcases hyz : compare y.toNat z.toNat with _ | _ | _ <;> rw [hyz] at h2
          · have hxz : compare x.toNat z.toNat = .lt := Nat.compare_eq_lt.mpr (by
              have u1 := Nat.compare_eq_lt.mp hxy
              have u2 := Nat.compare_eq_lt.mp hyz
              omega)
            rw [hxz]
            simp
          · have hxz : compare x.toNat z.toNat = .lt := Nat.compare_eq_lt.mpr (by
              have u1 := Nat.compare_eq_lt.mp hxy
              have u2 := Nat.compare_eq_eq.mp hyz
              omega)
            rw [hxz]
            simp
          · simp at h2
        · rcases hyz : compare y.toNat z.toNat with _ | _ | _ <;> rw [hyz] at h2
          · have hxz : compare x.toNat z.toNat = .lt := Nat.compare_eq_lt.mpr (by
              have u1 := Nat.compare_eq_eq.mp hxy
              have u2 := Nat.compare_eq_lt.mp hyz
              omega)
            rw [hxz]
            simp
          · have hxz : compare x.toNat z.toNat = .eq := Nat.compare_eq_eq.mpr (by
              have u1 := Nat.compare_eq_eq.mp hxy
              have u2 := Nat.compare_eq_eq.mp hyz
              omega)
            rw [hxz]
            exact ih ys zs h1 h2
          · simp at h2
        · simp at h1

/-- Specification of the `max_by` fold: it yields an element that no input
(nor the seed) exceeds under the byte-wise version comparison. -/
theorem foldl_maxStep_spec (ts : List Tool) : ∀ m : Tool,
    ∃ t, ts.foldl maxStep (some m) = some t ∧ (t = m ∨ t ∈ ts) ∧
      rustStrCmp m.sdk_version t.sdk_version ≠ .gt ∧
      ∀ u ∈ ts, rustStrCmp u.sdk_version t.sdk_version ≠ .gt := by
  induction ts with
  | nil =>
    intro m
    exact ⟨m, rfl, Or.inl rfl, by simp [rustStrCmp, strCmpAux_refl], by simp⟩
  | cons u ts ih =>
    intro m
    by_cases hcmp : rustStrCmp m.sdk_version u.sdk_version = .gt
    · have hstep : maxStep (some m) u = some m := by simp [maxStep, hcmp]
      obtain ⟨t, hfold, hmem, hm, hall⟩ := ih m
      refine ⟨t, ?_, ?_, hm, ?_⟩
      · rw [List.foldl_cons, hstep]
        exact hfold
      · rcases hmem with h | h
        · exact Or.inl h
        · exact Or.inr (List.mem_cons_of_mem u h)
      · intro w hw
        rcases List.mem_cons.mp hw with h | h
        · subst h
          have hum : rustStrCmp w.sdk_version m.sdk_version ≠ .gt := by
            have hlt := (strCmpAux_gt_iff _ _).mp hcmp
            simp [rustStrCmp, hlt]
          exact strCmpAux_le_trans _ _ _ hum hm
        · exact hall w h
    · have hstep : maxStep (some m) u = some u := by simp [maxStep, hcmp]
      obtain ⟨t, hfold, hmem, hu, hall⟩ := ih u
      refine ⟨t, ?_, ?_, ?_, ?_⟩
      · rw [List.foldl_cons, hstep]
        exact hfold
      · rcases hmem with h | h
        · exact Or.inr (h ▸ List.mem_cons_self u ts)
        · exact Or.inr (List.mem_cons_of_mem u h)
      · exact strCmpAux_le_trans _ _ _ hcmp hu
      · intro w hw
        rcases List.mem_cons.mp hw with h | h
        · subst h
          exact hu
        · exact hall w h

/-! ## Claim C1 (amended theorem) -/

/-- Claim C1 (amended): when no version preference is set, or the preference
matches no candidate, tool resolution selects a candidate whose version
string is greatest under byte-wise lexicographic string comparison (so
`10.0.9600.0` beats `10.0.17763.0`) — not under component-wise numeric
comparison. -/
theorem c1_amended_lexicographic_max (env_version : Option String)
    (tools : List Tool) (hne : tools ≠ [])
    (hnomatch : ∀ t ∈ tools, env_version ≠ some t.sdk_version) :
    ∃ t, getSdkSelect env_version tools = some t ∧ t ∈ tools ∧
      ∀ u ∈ tools, rustStrCmp u.sdk_version t.sdk_version ≠ .gt := by
  have hfind : (tools.find? fun tool =>
      match env_version with
      | some ev => ev == tool.sdk_version
      | none => false) = none := by
    rw [List.find?_eq_none]
    intro x hx
    cases env_version with
    | none => simp
    | some ev =>
      intro hbe
      have hev : ev = x.sdk_version := by simpa using hbe
      exact hnomatch x hx (by rw [hev])
  cases tools with
  | nil => exact absurd rfl hne
  | cons m ts =>
    obtain ⟨t, hfold, hmem, hm, hall⟩ := foldl_maxStep_spec ts m
    refine ⟨t, ?_, ?_, ?_⟩
    · simp only [getSdkSelect, hfind]
      exact hfold
    · rcases hmem with h | h
      · exact h ▸ List.mem_cons_self m ts
      · exact List.mem_cons_of_mem m h
    · intro w hw
      rcases List.mem_cons.mp hw with h | h
      · subst h
        exact hm
      · exact hall w h

/-- Witness for the amended C1 on the two-candidate inventory of the
counterexample. -/
theorem c1_amended_witness :
    ∃ t, getSdkSelect none [toolWith "10.0.17763.0", toolWith "10.0.9600.0"] =
        some t ∧
      t ∈ [toolWith "10.0.17763.0", toolWith "10.0.9600.0"] ∧
      ∀ u ∈ [toolWith "10.0.17763.0", toolWith "10.0.9600.0"],
        rustStrCmp u.sdk_version t.sdk_version ≠ .gt :=
  c1_amended_lexicographic_max none _ (by decide) (by decide)

end Winres
